import Mathlib

/-!
Verification of `src/models/LF_trainingv2.py` (News_Text_Cassification).

The script fine-tunes a Longformer classifier for political-bias labels
{-1, 0, 1}.  We shallowly embed its pure/state-passing core: the pickle-based
tokenization cache (`tokenize_with_cache`), the dataset adapter
(`NewsDataset`), the class-weight computation (`compute_class_weight`
with the 'balanced' policy over classes [-1, 0, 1]), the metrics function
(`compute_metrics` over accuracy and macro F1), the weighted-loss override
(`WeightedTrainer.compute_loss`) and the checkpoint-loading block.
File-system effects are modelled by explicit state passing on a map from
paths to file data; third-party numeric kernels that the script merely
invokes (the HuggingFace tokenizer's id production, torch's cross-entropy
kernel) are abstract parameters, while everything the script itself does
with their results is embedded concretely.
-/

set_option autoImplicit false

namespace NewsTextClassification

/-- A token-id or attention-mask sequence, one per article. -/
abbrev Seq := List Int

/-- The encoding of a single text: parallel fixed-length sequences. -/
structure Encoding where
  input_ids : Seq
  attention_mask : Seq
deriving DecidableEq, Repr

/-- The cached mapping written by `tokenize_with_cache`:
\x7b'input_ids': ..., 'attention_mask': ...\x7d with one entry per text. -/
structure Encodings where
  input_ids : List Seq
  attention_mask : List Seq
deriving DecidableEq, Repr

/-- Contents of a file at a cache path.  `pickled e` is a well-formed pickle
of an encodings dictionary (pickle output is never empty, so its size is
positive); `empty` is a zero-byte file, which fails the
`os.path.getsize(cache_path) > 0` test in the source. -/
inductive FileData where
  | pickled (e : Encodings)
  | empty
deriving DecidableEq, Repr

/-- The file system, as seen through the cache paths: `none` means the path
does not exist. -/
def FS : Type := String → Option FileData

/-- Writing a file (`open(cache_path, "wb")` followed by `pickle.dump`). -/
def FS.write (fs : FS) (p : String) (d : FileData) : FS :=
  fun q => if q = p then some d else fs q

/-- The cache-hit test of the source:
`os.path.exists(cache_path) and os.path.getsize(cache_path) > 0`,
followed by a successful `pickle.load`. -/
def FS.cacheHit (fs : FS) (p : String) : Option Encodings :=
  match fs p with
  | some (FileData.pickled e) => some e
  | _ => none

/-- Abstract HuggingFace tokenizer: `rawIds` is the (unbounded) token-id
sequence the library produces for a text, `padId` its padding token id.
The truncation/padding the script requests
(`truncation=True, padding='max_length', max_length=max_length`)
is applied on top of it in `Tokenizer.encode`. -/
structure Tokenizer where
  rawIds : String → Seq
  padId : Int

/-- One call `tokenizer(text, truncation=True, padding='max_length',
max_length=max_length)`: ids truncated to `max_length`, then padded with
`padId` up to `max_length`; the attention mask is 1 on real tokens and 0 on
padding. -/
def Tokenizer.encode (tok : Tokenizer) (max_length : Nat) (text : String) : Encoding :=
  let ids := (tok.rawIds text).take max_length
  { input_ids := ids ++ List.replicate (max_length - ids.length) tok.padId
    attention_mask :=
      List.replicate ids.length 1 ++ List.replicate (max_length - ids.length) 0 }

/-- The accumulation loop of `tokenize_with_cache`: one encoding per text,
appended in order into the two parallel arrays.  (The periodic
`torch.cuda.empty_cache()` / `gc.collect()` calls have no effect on the
result.) -/
def tokenizeAll (texts : List String) (tok : Tokenizer) (max_length : Nat) : Encodings :=
  { input_ids := texts.map (fun t => (tok.encode max_length t).input_ids)
    attention_mask := texts.map (fun t => (tok.encode max_length t).attention_mask) }

/-- `tokenize_with_cache(texts, tokenizer, max_length, cache_path)`:
if the cache path exists and is non-empty, unpickle and return it;
otherwise tokenize every text, then pickle the result to the cache path
and return it.  Returns the value together with the post-state of the
file system. -/
def tokenize_with_cache (texts : List String) (tok : Tokenizer) (max_length : Nat)
    (cache_path : String) (fs : FS) : Encodings × FS :=
  match fs cache_path with
  | some (FileData.pickled e) => (e, fs)
  | _ =>
      let encodings := tokenizeAll texts tok max_length
      (encodings, fs.write cache_path (FileData.pickled encodings))

lemma tokenize_with_cache_miss (texts : List String) (tok : Tokenizer) (max_length : Nat)
    (cache_path : String) (fs : FS)
    (h : fs cache_path = none ∨ fs cache_path = some FileData.empty) :
    tokenize_with_cache texts tok max_length cache_path fs =
      (tokenizeAll texts tok max_length,
       fs.write cache_path (FileData.pickled (tokenizeAll texts tok max_length))) := by
  rcases h with h | h <;> simp [tokenize_with_cache, h]

lemma tokenize_with_cache_hit (texts : List String) (tok : Tokenizer) (max_length : Nat)
    (cache_path : String) (fs : FS) (e : Encodings)
    (h : fs cache_path = some (FileData.pickled e)) :
    tokenize_with_cache texts tok max_length cache_path fs = (e, fs) := by
  simp [tokenize_with_cache, h]

lemma FS.write_self (fs : FS) (p : String) (d : FileData) : fs.write p d p = some d := by
  simp [FS.write]

/-- C1. Tokenization cache idempotence: starting from a state with no usable
cache at `cache_path`, the first call tokenizes and writes the cache file;
a second call with the same texts and path takes the cache-hit branch,
returns exactly the mapping the first call wrote, and leaves the file system
untouched. -/
theorem tokenize_with_cache_idempotent (texts : List String) (tok : Tokenizer)
    (max_length : Nat) (cache_path : String) (fs : FS)
    (hmiss : fs cache_path = none ∨ fs cache_path = some FileData.empty) :
    (tokenize_with_cache texts tok max_length cache_path fs).2 cache_path =
      some (FileData.pickled (tokenize_with_cache texts tok max_length cache_path fs).1) ∧
    tokenize_with_cache texts tok max_length cache_path
        (tokenize_with_cache texts tok max_length cache_path fs).2 =
      ((tokenize_with_cache texts tok max_length cache_path fs).1,
       (tokenize_with_cache texts tok max_length cache_path fs).2) := by
  rw [tokenize_with_cache_miss texts tok max_length cache_path fs hmiss]
  refine ⟨FS.write_self fs cache_path _, ?_⟩
  exact tokenize_with_cache_hit _ _ _ _ _ _ (FS.write_self fs cache_path _)

/-- A concrete tokenizer used by the witnesses. -/
def tokWitness : Tokenizer :=
  { rawIds := fun t => (List.range t.length).map Int.ofNat, padId := 1 }

/-- The empty file system used by the witnesses. -/
def fsEmpty : FS := fun _ => none

theorem tokenize_with_cache_idempotent_witness :
    ((fsEmpty "train_longformer.pkl" = none ∨
      fsEmpty "train_longformer.pkl" = some FileData.empty) ∧
     ((tokenize_with_cache ["ab", "c"] tokWitness 4 "train_longformer.pkl" fsEmpty).2
          "train_longformer.pkl" =
        some (FileData.pickled
          (tokenize_with_cache ["ab", "c"] tokWitness 4 "train_longformer.pkl" fsEmpty).1) ∧
      tokenize_with_cache ["ab", "c"] tokWitness 4 "train_longformer.pkl"
          (tokenize_with_cache ["ab", "c"] tokWitness 4 "train_longformer.pkl" fsEmpty).2 =
        ((tokenize_with_cache ["ab", "c"] tokWitness 4 "train_longformer.pkl" fsEmpty).1,
         (tokenize_with_cache ["ab", "c"] tokWitness 4 "train_longformer.pkl" fsEmpty).2))) :=
  ⟨Or.inl rfl,
   tokenize_with_cache_idempotent ["ab", "c"] tokWitness 4 "train_longformer.pkl" fsEmpty
     (Or.inl rfl)⟩

lemma encode_input_ids_length (tok : Tokenizer) (max_length : Nat) (t : String) :
    (tok.encode max_length t).input_ids.length = max_length := by
  simp only [Tokenizer.encode, List.length_append, List.length_replicate, List.length_take]
  omega

lemma encode_attention_mask_length (tok : Tokenizer) (max_length : Nat) (t : String) :
    (tok.encode max_length t).attention_mask.length = max_length := by
  simp only [Tokenizer.encode, List.length_append, List.length_replicate, List.length_take]
  omega

/-- C2. Cache-miss tokenization correctness: with no usable cache file at
`cache_path`, `tokenize_with_cache` returns a mapping whose 'input_ids' and
'attention_mask' arrays have exactly one entry per input text, every entry
has length exactly `max_length` (truncation and padding), and the mapping is
pickled to `cache_path` before returning. -/
theorem tokenize_with_cache_miss_spec (texts : List String) (tok : Tokenizer)
    (max_length : Nat) (cache_path : String) (fs : FS)
    (hmiss : fs cache_path = none ∨ fs cache_path = some FileData.empty) :
    (tokenize_with_cache texts tok max_length cache_path fs).1.input_ids.length =
      texts.length ∧
    (tokenize_with_cache texts tok max_length cache_path fs).1.attention_mask.length =
      texts.length ∧
    (∀ s ∈ (tokenize_with_cache texts tok max_length cache_path fs).1.input_ids,
      s.length = max_length) ∧
    (∀ s ∈ (tokenize_with_cache texts tok max_length cache_path fs).1.attention_mask,
      s.length = max_length) ∧
    (tokenize_with_cache texts tok max_length cache_path fs).2 cache_path =
      some (FileData.pickled (tokenize_with_cache texts tok max_length cache_path fs).1) := by
  rw [tokenize_with_cache_miss texts tok max_length cache_path fs hmiss]
  refine ⟨?_, ?_, ?_, ?_, FS.write_self fs cache_path _⟩
  · simp [tokenizeAll]
  · simp [tokenizeAll]
  · intro s hs
    simp only [tokenizeAll, List.mem_map] at hs
    obtain ⟨t, _, rfl⟩ := hs
    exact encode_input_ids_length tok max_length t
  · intro s hs
    simp only [tokenizeAll, List.mem_map] at hs
    obtain ⟨t, _, rfl⟩ := hs
    exact encode_attention_mask_length tok max_length t

theorem tokenize_with_cache_miss_spec_witness :
    ((fsEmpty "val_longformer.pkl" = none ∨
      fsEmpty "val_longformer.pkl" = some FileData.empty) ∧
     ((tokenize_with_cache ["abc"] tokWitness 1024 "val_longformer.pkl" fsEmpty).1.input_ids.length =
        ["abc"].length ∧
      (tokenize_with_cache ["abc"] tokWitness 1024 "val_longformer.pkl"
          fsEmpty).1.attention_mask.length = ["abc"].length ∧
      (∀ s ∈ (tokenize_with_cache ["abc"] tokWitness 1024 "val_longformer.pkl"
          fsEmpty).1.input_ids, s.length = 1024) ∧
      (∀ s ∈ (tokenize_with_cache ["abc"] tokWitness 1024 "val_longformer.pkl"
          fsEmpty).1.attention_mask, s.length = 1024) ∧
      (tokenize_with_cache ["abc"] tokWitness 1024 "val_longformer.pkl" fsEmpty).2
          "val_longformer.pkl" =
        some (FileData.pickled
          (tokenize_with_cache ["abc"] tokWitness 1024 "val_longformer.pkl" fsEmpty).1))) :=
  ⟨Or.inl rfl,
   tokenize_with_cache_miss_spec ["abc"] tokWitness 1024 "val_longformer.pkl" fsEmpty
     (Or.inl rfl)⟩

/-- C9. Cache-hit noninterference: when the cache path holds a non-empty
pickle of `e`, the call returns `e` and leaves the file system unchanged,
whatever the texts, tokenizer and max_length arguments are; in particular two
calls with entirely different arguments against the same state agree. -/
theorem tokenize_with_cache_hit_noninterference
    (texts₁ texts₂ : List String) (tok₁ tok₂ : Tokenizer) (ml₁ ml₂ : Nat)
    (cache_path : String) (fs : FS) (e : Encodings)
    (hhit : fs cache_path = some (FileData.pickled e)) :
    tokenize_with_cache texts₁ tok₁ ml₁ cache_path fs = (e, fs) ∧
    tokenize_with_cache texts₂ tok₂ ml₂ cache_path fs = (e, fs) := by
  exact ⟨tokenize_with_cache_hit _ _ _ _ _ _ hhit,
         tokenize_with_cache_hit _ _ _ _ _ _ hhit⟩

/-- A concrete cached value used by the witnesses. -/
def encWitness : Encodings :=
  { input_ids := [[7, 7]], attention_mask := [[1, 0]] }

/-- A file system holding a pickled cache, used by the witnesses. -/
def fsWithCache : FS :=
  fun p => if p = "train_longformer.pkl" then some (FileData.pickled encWitness) else none

theorem tokenize_with_cache_hit_noninterference_witness :
    (fsWithCache "train_longformer.pkl" = some (FileData.pickled encWitness) ∧
     (tokenize_with_cache ["x"] tokWitness 4 "train_longformer.pkl" fsWithCache =
        (encWitness, fsWithCache) ∧
      tokenize_with_cache ["completely", "different"] tokWitness 1024 "train_longformer.pkl"
          fsWithCache = (encWitness, fsWithCache))) :=
  ⟨rfl,
   tokenize_with_cache_hit_noninterference ["x"] ["completely", "different"]
     tokWitness tokWitness 4 1024 "train_longformer.pkl" fsWithCache encWitness rfl⟩

/-- The per-text loop of `tokenize_with_cache` when the tokenizer may raise:
the loop stops at the first failing text, exactly as an uncaught exception
would abort the `for` loop of the source. -/
def tokenizeLoop (tok : String → Option Encoding) : List String → Option (List Encoding)
  | [] => some []
  | t :: ts =>
      match tok t with
      | none => none
      | some e =>
          match tokenizeLoop tok ts with
          | none => none
          | some es => some (e :: es)

/-- `tokenize_with_cache` with a possibly-failing tokenizer call: the file
write happens only after the whole loop has succeeded, so a failure
propagates with the file system still in its pre-call state (`Except.error`
carries the post-state at the moment of the crash). -/
def tokenize_with_cacheE (texts : List String) (tok : String → Option Encoding)
    (cache_path : String) (fs : FS) : Except FS (Encodings × FS) :=
  match fs cache_path with
  | some (FileData.pickled e) => Except.ok (e, fs)
  | _ =>
      match tokenizeLoop tok texts with
      | none => Except.error fs
      | some encs =>
          let encodings : Encodings :=
            { input_ids := encs.map Encoding.input_ids
              attention_mask := encs.map Encoding.attention_mask }
          Except.ok (encodings, fs.write cache_path (FileData.pickled encodings))

lemma tokenizeLoop_of_fail (tok : String → Option Encoding) (texts : List String)
    (hfail : ∃ t ∈ texts, tok t = none) : tokenizeLoop tok texts = none := by
  induction texts with
  | nil => simp at hfail
  | cons t ts ih =>
      obtain ⟨u, hu, hnone⟩ := hfail
      rcases List.mem_cons.mp hu with rfl | hu
      · simp [tokenizeLoop, hnone]
      · cases htok : tok t with
        | none => simp [tokenizeLoop, htok]
        | some e => simp [tokenizeLoop, htok, ih ⟨u, hu, hnone⟩]

/-- C8. Cache write atomicity: with no usable cache at `cache_path`, if the
tokenizer raises on any text of the list, the call aborts with the file
system exactly as it was — in particular no cache file has been created at
`cache_path`.  (The single `pickle.dump` happens only after the loop has
processed every text.) -/
theorem tokenize_with_cacheE_no_partial_write (texts : List String)
    (tok : String → Option Encoding) (cache_path : String) (fs : FS)
    (hmiss : fs cache_path = none ∨ fs cache_path = some FileData.empty)
    (hfail : ∃ t ∈ texts, tok t = none) :
    tokenize_with_cacheE texts tok cache_path fs = Except.error fs ∧
    (fs cache_path = none ∨ fs cache_path = some FileData.empty) := by
  have hloop := tokenizeLoop_of_fail tok texts hfail
  refine ⟨?_, hmiss⟩
  rcases hmiss with h | h <;> simp [tokenize_with_cacheE, h, hloop]

/-- A tokenizer that crashes on its second text, used by the C8 witness. -/
def tokCrash : String → Option Encoding :=
  fun t => if t = "boom" then none else some { input_ids := [0], attention_mask := [1] }

theorem tokenize_with_cacheE_no_partial_write_witness :
    ((fsEmpty "train_longformer.pkl" = none ∨
      fsEmpty "train_longformer.pkl" = some FileData.empty) ∧
     (∃ t ∈ ["ok", "boom", "later"], tokCrash t = none) ∧
     (tokenize_with_cacheE ["ok", "boom", "later"] tokCrash "train_longformer.pkl" fsEmpty =
        Except.error fsEmpty ∧
      (fsEmpty "train_longformer.pkl" = none ∨
       fsEmpty "train_longformer.pkl" = some FileData.empty))) :=
  ⟨Or.inl rfl, ⟨"boom", by decide, rfl⟩,
   tokenize_with_cacheE_no_partial_write ["ok", "boom", "later"] tokCrash
     "train_longformer.pkl" fsEmpty (Or.inl rfl) ⟨"boom", by decide, rfl⟩⟩

/-- The `NewsDataset` adapter: wraps the cached encodings and the label
list. -/
structure NewsDataset where
  encodings : Encodings
  labels : List Int

/-- The dictionary returned by `NewsDataset.__getitem__`: tensors for the
two sequences and the label shifted by +1 into \x7b0,1,2\x7d. -/
structure Item where
  input_ids : Seq
  attention_mask : Seq
  labels : Int
deriving DecidableEq, Repr

/-- `NewsDataset.__len__`: the number of labels (the encodings play no
role). -/
def NewsDataset.numItems (ds : NewsDataset) : Nat := ds.labels.length

/-- `NewsDataset.__getitem__(idx)`: indexes both encoding arrays and the
label list at `idx`; `none` models the `IndexError` raised when any of the
three accesses is out of range, and the label is stored shifted by +1. -/
def NewsDataset.getItem (ds : NewsDataset) (idx : Nat) : Option Item :=
  match ds.encodings.input_ids[idx]?, ds.encodings.attention_mask[idx]?,
        ds.labels[idx]? with
  | some ii, some am, some l =>
      some { input_ids := ii, attention_mask := am, labels := l + 1 }
  | _, _, _ => none

/-- The label un-shift performed by `compute_metrics`
(`labels = pred.label_ids - 1`, elementwise). -/
def unshiftLabels (ids : List Int) : List Int := ids.map (fun l => l - 1)

/-- C10. Dataset adapter indexing safety: the length is the number of labels
whatever the encodings are, and indexed access succeeds at every index below
the length exactly when both encoding arrays are at least as long as the
label list. -/
theorem newsDataset_indexing_safety (ds : NewsDataset) :
    (∀ enc : Encodings, NewsDataset.numItems { ds with encodings := enc } =
      ds.labels.length) ∧
    ((ds.labels.length ≤ ds.encodings.input_ids.length ∧
      ds.labels.length ≤ ds.encodings.attention_mask.length) ↔
     ∀ idx : Nat, idx < ds.numItems → (ds.getItem idx).isSome) := by
  refine ⟨fun _ => rfl, ?_, ?_⟩
  · rintro ⟨hi, ha⟩ idx hidx
    have h1 : idx < ds.encodings.input_ids.length := lt_of_lt_of_le hidx hi
    have h2 : idx < ds.encodings.attention_mask.length := lt_of_lt_of_le hidx ha
    have e1 := List.getElem?_eq_getElem h1
    have e2 := List.getElem?_eq_getElem h2
    have e3 := List.getElem?_eq_getElem (show idx < ds.labels.length from hidx)
    simp [NewsDataset.getItem, e1, e2, e3]
  · intro hall
    constructor
    · by_contra hlt
      push_neg at hlt
      have hsome := hall ds.encodings.input_ids.length hlt
      have : ds.encodings.input_ids[ds.encodings.input_ids.length]? = none :=
        List.getElem?_eq_none le_rfl
      simp [NewsDataset.getItem, this] at hsome
    · by_contra hlt
      push_neg at hlt
      have hsome := hall ds.encodings.attention_mask.length hlt
      have : ds.encodings.attention_mask[ds.encodings.attention_mask.length]? = none :=
        List.getElem?_eq_none le_rfl
      simp [NewsDataset.getItem, this] at hsome

/-- A well-formed concrete dataset for the witnesses. -/
def dsGood : NewsDataset :=
  { encodings := { input_ids := [[3, 1], [4, 1]], attention_mask := [[1, 0], [1, 0]] }
    labels := [-1, 1] }

/-- A dataset whose cached encodings are shorter than its label list. -/
def dsStale : NewsDataset :=
  { encodings := { input_ids := [[3, 1]], attention_mask := [[1, 0]] }
    labels := [-1, 1] }

theorem newsDataset_indexing_safety_witness :
    ((∀ enc : Encodings, NewsDataset.numItems { dsGood with encodings := enc } =
        dsGood.labels.length) ∧
     (∀ idx : Nat, idx < dsGood.numItems → (dsGood.getItem idx).isSome)) ∧
    ¬ (dsStale.labels.length ≤ dsStale.encodings.input_ids.length ∧
       dsStale.labels.length ≤ dsStale.encodings.attention_mask.length) :=
  ⟨⟨(newsDataset_indexing_safety dsGood).1,
    (newsDataset_indexing_safety dsGood).2.mp (by decide)⟩,
   fun h => by
     have := (newsDataset_indexing_safety dsStale).2.mp h 1 (by decide)
     simp [dsStale, NewsDataset.getItem] at this⟩

/-- C4. Label shift round-trip: for every label in \x7b-1,0,1\x7d, the +1 shift
stored by `NewsDataset.__getitem__` followed by the -1 shift of
`compute_metrics` is the identity, so \x7b-1,0,1\x7d maps bijectively to
\x7b0,1,2\x7d and back. -/
theorem label_shift_roundtrip (ds : NewsDataset) (idx : Nat) (l : Int) (item : Item)
    (hl : l = -1 ∨ l = 0 ∨ l = 1)
    (hlab : ds.labels[idx]? = some l)
    (hitem : ds.getItem idx = some item) :
    unshiftLabels [item.labels] = [l] ∧ item.labels = l + 1 ∧
    (l + 1 = 0 ∨ l + 1 = 1 ∨ l + 1 = 2) := by
  have hlabels : item.labels = l + 1 := by
    unfold NewsDataset.getItem at hitem
    rcases h1 : ds.encodings.input_ids[idx]? with _ | ii <;>
      rcases h2 : ds.encodings.attention_mask[idx]? with _ | am <;>
        (simp [h1, h2, hlab] at hitem; try simp [← hitem])
  refine ⟨?_, hlabels, ?_⟩
  · simp [unshiftLabels, hlabels]
  · omega

theorem label_shift_roundtrip_witness :
    (((-1 : Int) = -1 ∨ (-1 : Int) = 0 ∨ (-1 : Int) = 1) ∧
     dsGood.labels[0]? = some (-1) ∧
     dsGood.getItem 0 =
       some { input_ids := [3, 1], attention_mask := [1, 0], labels := 0 }) ∧
    (unshiftLabels [(0 : Int)] = [-1] ∧ (0 : Int) = -1 + 1 ∧
     ((-1 : Int) + 1 = 0 ∨ (-1 : Int) + 1 = 1 ∨ (-1 : Int) + 1 = 2)) :=
  ⟨⟨Or.inl rfl, by decide, by decide⟩,
   label_shift_roundtrip dsGood 0 (-1)
     { input_ids := [3, 1], attention_mask := [1, 0], labels := 0 }
     (Or.inl rfl) (by decide) (by decide)⟩

/-- The 'balanced' weight of one class, as computed by sklearn's
`compute_class_weight(class_weight='balanced', classes=np.array([-1,0,1]),
y=np.array(train_labels))`: `n_samples / (n_classes * count_of_class)`
with `n_classes = 3`. -/
def balancedWeight (train_labels : List Int) (c : Int) : ℚ :=
  (train_labels.length : ℚ) / (3 * (train_labels.count c : ℚ))

/-- The class-weight vector of the script, indexed in the fixed class order
[-1, 0, 1]; it is computed from the training split's labels only. -/
def class_weights (train_labels : List Int) : List ℚ :=
  ([-1, 0, 1] : List Int).map (balancedWeight train_labels)

lemma length_eq_sum_counts (labels : List Int)
    (hmem : ∀ l ∈ labels, l = -1 ∨ l = 0 ∨ l = 1) :
    labels.length = labels.count (-1) + labels.count 0 + labels.count 1 := by
  induction labels with
  | nil => simp
  | cons a t ih =>
      have ha := hmem a (List.mem_cons_self a t)
      have ht := ih (fun l hl => hmem l (List.mem_cons_of_mem a hl))
      rcases ha with rfl | rfl | rfl <;>
        simp [List.count_cons, ht] <;> omega

/-- C3. Class weight correctness: on a training-label list drawn from
\x7b-1,0,1\x7d whose three class counts a, b, c are all positive, the weight
vector in class order [-1, 0, 1] is
[(a+b+c)/(3a), (a+b+c)/(3b), (a+b+c)/(3c)]; every weight is strictly
positive, and a class with a higher count gets a weight no larger than a
class with a lower count.  The computation reads only the training labels:
`class_weights` is a function of its single `train_labels` argument. -/
theorem class_weights_spec (train_labels : List Int)
    (hmem : ∀ l ∈ train_labels, l = -1 ∨ l = 0 ∨ l = 1)
    (ha : 0 < train_labels.count (-1)) (hb : 0 < train_labels.count 0)
    (hc : 0 < train_labels.count 1) :
    class_weights train_labels =
      [((train_labels.count (-1) + train_labels.count 0 + train_labels.count 1 : ℕ) : ℚ) /
         (3 * (train_labels.count (-1) : ℚ)),
       ((train_labels.count (-1) + train_labels.count 0 + train_labels.count 1 : ℕ) : ℚ) /
         (3 * (train_labels.count 0 : ℚ)),
       ((train_labels.count (-1) + train_labels.count 0 + train_labels.count 1 : ℕ) : ℚ) /
         (3 * (train_labels.count 1 : ℚ))] ∧
    (∀ w ∈ class_weights train_labels, 0 < w) ∧
    (∀ c₁ ∈ ([-1, 0, 1] : List Int), ∀ c₂ ∈ ([-1, 0, 1] : List Int),
      train_labels.count c₁ ≤ train_labels.count c₂ →
      balancedWeight train_labels c₂ ≤ balancedWeight train_labels c₁) := by
  have hlen := length_eq_sum_counts train_labels hmem
  have hlenpos : (0 : ℚ) < (train_labels.length : ℚ) := by
    have : 0 < train_labels.length := by omega
    exact_mod_cast this
  have hcountpos : ∀ c ∈ ([-1, 0, 1] : List Int), 0 < train_labels.count c := by
    intro c hcmem
    rcases List.mem_cons.mp hcmem with rfl | hcmem
    · exact ha
    rcases List.mem_cons.mp hcmem with rfl | hcmem
    · exact hb
    rcases List.mem_cons.mp hcmem with rfl | hcmem
    · exact hc
    · simp at hcmem
  refine ⟨?_, ?_, ?_⟩
  · simp only [class_weights, List.map_cons, List.map_nil, balancedWeight, hlen]
  · intro w hw
    simp only [class_weights, List.mem_map] at hw
    obtain ⟨c, hcmem, rfl⟩ := hw
    have hcpos : (0 : ℚ) < (train_labels.count c : ℚ) := by
      exact_mod_cast hcountpos c hcmem
    exact div_pos hlenpos (by linarith)
  · intro c₁ hc₁ c₂ hc₂ hle
    have h1 : (0 : ℚ) < (train_labels.count c₁ : ℚ) := by
      exact_mod_cast hcountpos c₁ hc₁
    have h2 : (0 : ℚ) < (train_labels.count c₂ : ℚ) := by
      exact_mod_cast hcountpos c₂ hc₂
    have hleq : (train_labels.count c₁ : ℚ) ≤ (train_labels.count c₂ : ℚ) := by
      exact_mod_cast hle
    unfold balancedWeight
    have h3 : (0 : ℚ) < 3 * (train_labels.count c₁ : ℚ) := by linarith
    exact div_le_div_of_nonneg_left (le_of_lt hlenpos) h3 (by linarith)

theorem class_weights_spec_witness :
    ((∀ l ∈ ([-1, 0, 0, 1, 1, 1] : List Int), l = -1 ∨ l = 0 ∨ l = 1) ∧
     0 < ([-1, 0, 0, 1, 1, 1] : List Int).count (-1) ∧
     0 < ([-1, 0, 0, 1, 1, 1] : List Int).count 0 ∧
     0 < ([-1, 0, 0, 1, 1, 1] : List Int).count 1) ∧
    (class_weights [-1, 0, 0, 1, 1, 1] =
      [((([-1, 0, 0, 1, 1, 1] : List Int).count (-1) +
         ([-1, 0, 0, 1, 1, 1] : List Int).count 0 +
         ([-1, 0, 0, 1, 1, 1] : List Int).count 1 : ℕ) : ℚ) /
          (3 * ((([-1, 0, 0, 1, 1, 1] : List Int).count (-1) : ℕ) : ℚ)),
       ((([-1, 0, 0, 1, 1, 1] : List Int).count (-1) +
         ([-1, 0, 0, 1, 1, 1] : List Int).count 0 +
         ([-1, 0, 0, 1, 1, 1] : List Int).count 1 : ℕ) : ℚ) /
          (3 * ((([-1, 0, 0, 1, 1, 1] : List Int).count 0 : ℕ) : ℚ)),
       ((([-1, 0, 0, 1, 1, 1] : List Int).count (-1) +
         ([-1, 0, 0, 1, 1, 1] : List Int).count 0 +
         ([-1, 0, 0, 1, 1, 1] : List Int).count 1 : ℕ) : ℚ) /
          (3 * ((([-1, 0, 0, 1, 1, 1] : List Int).count 1 : ℕ) : ℚ))] ∧
     (∀ w ∈ class_weights [-1, 0, 0, 1, 1, 1], 0 < w) ∧
     (∀ c₁ ∈ ([-1, 0, 1] : List Int), ∀ c₂ ∈ ([-1, 0, 1] : List Int),
       ([-1, 0, 0, 1, 1, 1] : List Int).count c₁ ≤
         ([-1, 0, 0, 1, 1, 1] : List Int).count c₂ →
       balancedWeight [-1, 0, 0, 1, 1, 1] c₂ ≤ balancedWeight [-1, 0, 0, 1, 1, 1] c₁)) :=
  ⟨⟨by decide, by decide, by decide, by decide⟩,
   class_weights_spec [-1, 0, 0, 1, 1, 1] (by decide) (by decide) (by decide) (by decide)⟩

/-- `np.argmax` over one row of logits: index of the first maximal entry
(`bestVal < x` so that later ties do not displace the current best). -/
def argmaxGo : List ℚ → Nat → Nat → ℚ → Nat
  | [], _, best, _ => best
  | x :: rest, i, best, bestVal =>
      if bestVal < x then argmaxGo rest (i + 1) i x
      else argmaxGo rest (i + 1) best bestVal

/-- `np.argmax(row)`; 0 on an empty row (numpy raises there, but the rows
the script feeds it always have 3 logits). -/
def argmax (xs : List ℚ) : Nat :=
  match xs with
  | [] => 0
  | x :: rest => argmaxGo rest 1 0 x

/-- sklearn `accuracy_score(y_true, y_pred)`: fraction of positions where
the two (equal-length) vectors agree. -/
def accuracy_score (y_true y_pred : List Int) : ℚ :=
  (((y_true.zip y_pred).countP (fun p => decide (p.1 = p.2)) : ℕ) : ℚ) /
    (y_true.length : ℚ)

/-- The label set sklearn's `f1_score` averages over when no `labels`
argument is given: the distinct values occurring in `y_true` or `y_pred`. -/
def presentLabels (y_true y_pred : List Int) : List Int := (y_true ++ y_pred).dedup

/-- True positives of class `c`. -/
def truePos (y_true y_pred : List Int) (c : Int) : Nat :=
  (y_true.zip y_pred).countP (fun p => decide (p.1 = c ∧ p.2 = c))

/-- False positives of class `c`. -/
def falsePos (y_true y_pred : List Int) (c : Int) : Nat :=
  (y_true.zip y_pred).countP (fun p => decide (p.1 ≠ c ∧ p.2 = c))

/-- False negatives of class `c`. -/
def falseNeg (y_true y_pred : List Int) (c : Int) : Nat :=
  (y_true.zip y_pred).countP (fun p => decide (p.1 = c ∧ p.2 ≠ c))

/-- Per-class precision, with sklearn's `zero_division=0` default. -/
def precisionOf (y_true y_pred : List Int) (c : Int) : ℚ :=
  if truePos y_true y_pred c + falsePos y_true y_pred c = 0 then 0
  else (truePos y_true y_pred c : ℚ) /
    ((truePos y_true y_pred c : ℚ) + (falsePos y_true y_pred c : ℚ))

/-- Per-class recall, with sklearn's `zero_division=0` default. -/
def recallOf (y_true y_pred : List Int) (c : Int) : ℚ :=
  if truePos y_true y_pred c + falseNeg y_true y_pred c = 0 then 0
  else (truePos y_true y_pred c : ℚ) /
    ((truePos y_true y_pred c : ℚ) + (falseNeg y_true y_pred c : ℚ))

/-- Per-class F1 = 2pr/(p+r), 0 when p + r = 0. -/
def f1Of (y_true y_pred : List Int) (c : Int) : ℚ :=
  let p := precisionOf y_true y_pred c
  let r := recallOf y_true y_pred c
  if p + r = 0 then 0 else 2 * p * r / (p + r)

/-- sklearn `f1_score(labels, preds, average='macro')`: unweighted mean of
the per-class F1 scores over the labels present in either vector. -/
def macroF1 (y_true y_pred : List Int) : ℚ :=
  ((presentLabels y_true y_pred).map (f1Of y_true y_pred)).sum /
    ((presentLabels y_true y_pred).length : ℚ)

/-- The `pred` object handed to `compute_metrics`: raw logits
(`pred.predictions`, one row of 3 floats per example) and shifted label ids
(`pred.label_ids`, values in \x7b0,1,2\x7d). -/
structure EvalPred where
  predictions : List (List ℚ)
  label_ids : List Int

/-- The mapping \x7b"accuracy": acc, "f1": f1\x7d returned by
`compute_metrics`. -/
structure MetricsOut where
  accuracy : ℚ
  f1 : ℚ
deriving DecidableEq, Repr

/-- `compute_metrics(pred)`: `labels = pred.label_ids - 1`,
`preds = np.argmax(pred.predictions, axis=1) - 1`, then accuracy and
macro F1 of `preds` against `labels`.  (Defined twice verbatim in the
source; both definitions are this function.) -/
def compute_metrics (pred : EvalPred) : MetricsOut :=
  let labels := unshiftLabels pred.label_ids
  let preds := pred.predictions.map (fun row => (argmax row : Int) - 1)
  { accuracy := accuracy_score labels preds
    f1 := macroF1 labels preds }

lemma mem_zip_self {a b : Int} {l : List Int} (h : (a, b) ∈ l.zip l) : a = b := by
  induction l with
  | nil => simp at h
  | cons x t ih =>
      rcases List.mem_cons.mp h with heq | hmem
      · injection heq with h1 h2
        rw [h1, h2]
      · exact ih hmem

lemma countP_zip_self_eq (l : List Int) :
    (l.zip l).countP (fun p => decide (p.1 = p.2)) = l.length := by
  induction l with
  | nil => simp
  | cons a t ih => simp [List.countP_cons, ih]

lemma accuracy_score_self (l : List Int) (hne : l ≠ []) : accuracy_score l l = 1 := by
  have hcount := countP_zip_self_eq l
  have hlen : (0 : ℚ) < (l.length : ℚ) := by
    have : 0 < l.length := List.length_pos.mpr hne
    exact_mod_cast this
  rw [accuracy_score, hcount]
  exact div_self (ne_of_gt hlen)

lemma truePos_self (l : List Int) (c : Int) : truePos l l c = l.count c := by
  unfold truePos
  induction l with
  | nil => simp
  | cons a t ih =>
      by_cases hac : a = c <;>
        simp only [List.zip_cons_cons, List.countP_cons, List.count_cons, ih, hac] <;>
        simp [hac]

lemma falsePos_self (l : List Int) (c : Int) : falsePos l l c = 0 := by
  unfold falsePos
  rw [List.countP_eq_zero]
  rintro ⟨a, b⟩ hp
  have hab := mem_zip_self hp
  subst hab
  simp

lemma falseNeg_self (l : List Int) (c : Int) : falseNeg l l c = 0 := by
  unfold falseNeg
  rw [List.countP_eq_zero]
  rintro ⟨a, b⟩ hp
  have hab := mem_zip_self hp
  subst hab
  simp

lemma f1Of_self (l : List Int) (c : Int) (hc : c ∈ l) : f1Of l l c = 1 := by
  have hcount : 0 < l.count c := List.count_pos_iff.mpr hc
  have htp := truePos_self l c
  have hfp := falsePos_self l c
  have hfn := falseNeg_self l c
  have hden : (0 : ℚ) < (l.count c : ℚ) := by exact_mod_cast hcount
  have hprec : precisionOf l l c = 1 := by
    rw [precisionOf, htp, hfp]
    rw [if_neg (by omega)]
    push_cast
    rw [add_zero]
    exact div_self (ne_of_gt hden)
  have hrec : recallOf l l c = 1 := by
    rw [recallOf, htp, hfn]
    rw [if_neg (by omega)]
    push_cast
    rw [add_zero]
    exact div_self (ne_of_gt hden)
  rw [f1Of]
  simp [hprec, hrec]
  norm_num

lemma sum_map_ones {α : Type} (cs : List α) (f : α → ℚ) (h : ∀ c ∈ cs, f c = 1) :
    (cs.map f).sum = (cs.length : ℚ) := by
  induction cs with
  | nil => simp
  | cons a t ih =>
      simp only [List.map_cons, List.sum_cons, List.length_cons,
        h a (List.mem_cons_self a t), ih (fun c hc => h c (List.mem_cons_of_mem a hc))]
      push_cast
      ring

lemma macroF1_self (l : List Int) (hne : l ≠ []) : macroF1 l l = 1 := by
  have hmem : ∀ c ∈ presentLabels l l, c ∈ l := by
    intro c hc
    have happ := List.mem_dedup.mp hc
    rcases List.mem_append.mp happ with h | h <;> exact h
  have hsum := sum_map_ones (presentLabels l l) (f1Of l l)
    (fun c hc => f1Of_self l c (hmem c hc))
  have hnonempty : presentLabels l l ≠ [] := by
    obtain ⟨a, t, rfl⟩ := List.exists_cons_of_ne_nil hne
    intro hcontra
    have : a ∈ presentLabels (a :: t) (a :: t) := by
      unfold presentLabels
      simp
    simp [hcontra] at this
  have hlen : (0 : ℚ) < ((presentLabels l l).length : ℚ) := by
    have : 0 < (presentLabels l l).length := List.length_pos.mpr hnonempty
    exact_mod_cast this
  rw [macroF1, hsum]
  exact div_self (ne_of_gt hlen)

lemma preds_eq_unshifted (ps : List (List ℚ)) (ls : List Int)
    (hlen : ps.length = ls.length)
    (hmatch : ∀ p ∈ ps.zip ls, (argmax p.1 : Int) = p.2) :
    ps.map (fun row => (argmax row : Int) - 1) = unshiftLabels ls := by
  unfold unshiftLabels
  induction ps generalizing ls with
  | nil =>
      cases ls with
      | nil => simp
      | cons b lt => simp at hlen
  | cons a t ih =>
      cases ls with
      | nil => simp at hlen
      | cons b lt =>
          have hhead : (argmax a : Int) = b := by simpa using hmatch (a, b) (by simp)
          have htail := ih lt (by simpa using hlen)
            (fun p hp => hmatch p (List.mem_cons_of_mem _ hp))
          simp only [List.map_cons, htail, List.cons.injEq, and_true]
          omega

/-- C5. Metrics on perfect predictions: when the prediction matrix has one
row per label, is non-empty, and every row's arg-max equals the example's
shifted label, `compute_metrics` returns accuracy 1 and macro F1 1. -/
theorem compute_metrics_perfect (pred : EvalPred)
    (hlen : pred.predictions.length = pred.label_ids.length)
    (hne : pred.label_ids ≠ [])
    (hmatch : ∀ p ∈ pred.predictions.zip pred.label_ids, (argmax p.1 : Int) = p.2) :
    (compute_metrics pred).accuracy = 1 ∧ (compute_metrics pred).f1 = 1 := by
  have hpreds := preds_eq_unshifted pred.predictions pred.label_ids hlen hmatch
  have hne2 : unshiftLabels pred.label_ids ≠ [] := by
    unfold unshiftLabels
    simpa using hne
  unfold compute_metrics
  rw [hpreds]
  exact ⟨accuracy_score_self _ hne2, macroF1_self _ hne2⟩

/-- A concrete `pred` object whose arg-max predictions are perfect. -/
def predPerfect : EvalPred :=
  { predictions := [[1, 5, 0], [7, 2, 2], [0, 0, 9]], label_ids := [1, 0, 2] }

theorem compute_metrics_perfect_witness :
    (predPerfect.predictions.length = predPerfect.label_ids.length ∧
     predPerfect.label_ids ≠ [] ∧
     (∀ p ∈ predPerfect.predictions.zip predPerfect.label_ids,
       (argmax p.1 : Int) = p.2)) ∧
    ((compute_metrics predPerfect).accuracy = 1 ∧ (compute_metrics predPerfect).f1 = 1) :=
  ⟨⟨rfl, by decide, by decide⟩,
   compute_metrics_perfect predPerfect rfl (by decide) (by decide)⟩

/-- A torch device (e.g. "cuda", "cpu"). -/
structure Device where
  name : String
deriving DecidableEq, Repr

/-- A 1-d float tensor carrying its device, enough to model the
class-weight vector and its `.to(model.device)` move. -/
structure TensorQ where
  data : List ℚ
  device : Device
deriving DecidableEq, Repr

/-- `tensor.to(device)`: same data, placed on `device`. -/
def TensorQ.toDevice (t : TensorQ) (d : Device) : TensorQ :=
  { data := t.data, device := d }

/-- A training batch as handed to `compute_loss`: `inputs.get("labels")`
returns `none` when the batch carries no labels. -/
structure Batch where
  input_ids : List Seq
  attention_mask : List Seq
  labels : Option (List Int)

/-- The output object of the model's forward pass; the script reads only
its logits (`outputs.get("logits")`). -/
structure ModelOutputs where
  logits : List (List ℚ)

/-- The model as `compute_loss` sees it: a compute device and a forward
pass from a batch to outputs. -/
structure Model where
  device : Device
  forward : Batch → ModelOutputs

/-- The numeric kernel of `torch.nn.CrossEntropyLoss(weight=w)` applied to
(logits, labels): a third-party floating-point computation the script only
invokes, kept abstract; what the script contributes — which weight tensor,
on which device, which logits and which labels it is given — is embedded
concretely. -/
def CrossEntropyKernel : Type := TensorQ → List (List ℚ) → List Int → ℚ

/-- The value `compute_loss` returns: just the loss, or the
`(loss, outputs)` pair when `return_outputs` is set. -/
inductive LossResult where
  | single (loss : ℚ)
  | withOutputs (loss : ℚ) (outputs : ModelOutputs)

/-- The `WeightedTrainer` subclass state: the `class_weights` tensor stored
at construction. -/
structure WeightedTrainer where
  class_weights : TensorQ

/-- `WeightedTrainer.compute_loss(model, inputs, return_outputs)`:
reads `labels` from the batch, runs the forward pass, reads the logits,
builds `CrossEntropyLoss(weight=self.class_weights.to(model.device))`,
applies it to (logits, labels) and returns `(loss, outputs)` or `loss`
according to the flag.  `none` models the exception torch raises when the
batch has no labels (`loss_fct(logits, None)`). -/
def WeightedTrainer.compute_loss (self : WeightedTrainer) (ce : CrossEntropyKernel)
    (model : Model) (inputs : Batch) (return_outputs : Bool) : Option LossResult :=
  match inputs.labels with
  | none => none
  | some ys =>
      let outputs := model.forward inputs
      let logits := outputs.logits
      let loss := ce (self.class_weights.toDevice model.device) logits ys
      some (if return_outputs then LossResult.withOutputs loss outputs
            else LossResult.single loss)

/-- C6. Weighted trainer loss contract: on any batch that carries labels,
`compute_loss` runs the forward pass, computes the weighted cross-entropy of
the resulting logits against the batch labels with the class-weight tensor
moved to the model's device, and returns `(loss, outputs)` when
`return_outputs` is true and just `loss` when it is false. -/
theorem weightedTrainer_compute_loss_contract (self : WeightedTrainer)
    (ce : CrossEntropyKernel) (model : Model) (inputs : Batch) (ys : List Int)
    (hlab : inputs.labels = some ys) :
    self.compute_loss ce model inputs true =
      some (LossResult.withOutputs
        (ce (self.class_weights.toDevice model.device) (model.forward inputs).logits ys)
        (model.forward inputs)) ∧
    self.compute_loss ce model inputs false =
      some (LossResult.single
        (ce (self.class_weights.toDevice model.device) (model.forward inputs).logits ys)) := by
  constructor <;> simp [WeightedTrainer.compute_loss, hlab]

/-- Concrete fixtures for the C6 witness. -/
def cuda : Device := { name := "cuda" }

def trainerW : WeightedTrainer :=
  { class_weights := { data := [2, 1, (1 : ℚ) / 2], device := { name := "cpu" } } }

def ceW : CrossEntropyKernel := fun w logits ys =>
  w.data.sum + (logits.map List.sum).sum + ((ys.map Int.cast).sum : ℚ)

def modelW : Model :=
  { device := cuda, forward := fun b => { logits := b.input_ids.map (List.map Int.cast) } }

def batchW : Batch :=
  { input_ids := [[1, 0], [0, 2]], attention_mask := [[1, 1], [1, 1]], labels := some [0, 2] }

theorem weightedTrainer_compute_loss_contract_witness :
    (batchW.labels = some [0, 2]) ∧
    (trainerW.compute_loss ceW modelW batchW true =
       some (LossResult.withOutputs
         (ceW (trainerW.class_weights.toDevice modelW.device)
           (modelW.forward batchW).logits [0, 2])
         (modelW.forward batchW)) ∧
     trainerW.compute_loss ceW modelW batchW false =
       some (LossResult.single
         (ceW (trainerW.class_weights.toDevice modelW.device)
           (modelW.forward batchW).logits [0, 2]))) :=
  ⟨rfl, weightedTrainer_compute_loss_contract trainerW ceW modelW batchW [0, 2] rfl⟩

/-- Serialized model parameters, abstract. -/
structure ModelWeights where
  vals : List ℚ
deriving DecidableEq, Repr

/-- The Longformer classification model as the checkpoint block handles it:
its weights, its number of output classes, whether gradient checkpointing is
enabled, and its device. -/
structure LFModel where
  weights : ModelWeights
  num_labels : Nat
  gradient_checkpointing : Bool
  device : Device
deriving DecidableEq, Repr

/-- The file-system state the checkpoint block reads and mutates:
whether `checkpoint_path` is an existing directory, the model state stored
there (meaningful when it exists; `storedValid = false` models a state
incompatible with the architecture, on which `from_pretrained` raises), and
whether `checkpoint_path/rng_state.pth` exists. -/
structure CkptState where
  dirExists : Bool
  storedWeights : ModelWeights
  storedNumLabels : Nat
  storedValid : Bool
  rngFileExists : Bool
deriving DecidableEq, Repr

/-- The terminal actions of the block:
`model.gradient_checkpointing_enable()` then `model.to("cuda")`. -/
def prepModel (m : LFModel) : LFModel :=
  { m with gradient_checkpointing := true, device := cuda }

/-- The checkpoint-loading block of the script.
`checkpoint_path` is the configured path (`none` models the commented
`None` alternative, falsy in the `if checkpoint_path and
os.path.exists(checkpoint_path)` test).  When the directory exists,
`from_pretrained(checkpoint_path)` loads the stored model, then
`rng_state.pth` is deleted if present; otherwise the base pretrained model
is instantiated with `num_labels=3` over the library's base weights.
Both branches then enable gradient checkpointing and move to "cuda".
`none` models the uncaught exception on an incompatible stored state. -/
def loadModelBlock (checkpoint_path : Option String) (st : CkptState)
    (baseWeights : ModelWeights) : Option (LFModel × CkptState) :=
  match checkpoint_path with
  | some _ =>
      if st.dirExists then
        if st.storedValid then
          let model : LFModel :=
            { weights := st.storedWeights, num_labels := st.storedNumLabels
              gradient_checkpointing := false, device := { name := "cpu" } }
          let st' := if st.rngFileExists then { st with rngFileExists := false } else st
          some (prepModel model, st')
        else none
      else
        some (prepModel
          { weights := baseWeights, num_labels := 3
            gradient_checkpointing := false, device := { name := "cpu" } }, st)
  | none =>
      some (prepModel
        { weights := baseWeights, num_labels := 3
          gradient_checkpointing := false, device := { name := "cpu" } }, st)

/-- C7. Checkpoint loader post-state: with the checkpoint directory present
and valid, the block succeeds, the RNG-state file no longer exists
afterwards, and the loaded model's weights are exactly the stored ones;
with the directory absent, the block instantiates the base pretrained model
with 3 output classes. -/
theorem loadModelBlock_post (p : String) (st : CkptState) (baseWeights : ModelWeights) :
    (st.dirExists = true → st.storedValid = true →
      ∃ m st', loadModelBlock (some p) st baseWeights = some (m, st') ∧
        st'.rngFileExists = false ∧ m.weights = st.storedWeights ∧
        m.num_labels = st.storedNumLabels) ∧
    (st.dirExists = false →
      ∃ m, loadModelBlock (some p) st baseWeights = some (m, st) ∧
        m.weights = baseWeights ∧ m.num_labels = 3) := by
  constructor
  · intro hdir hvalid
    by_cases hrng : st.rngFileExists = true
    · refine ⟨prepModel
          { weights := st.storedWeights, num_labels := st.storedNumLabels
            gradient_checkpointing := false, device := { name := "cpu" } },
        { st with rngFileExists := false },
        by simp [loadModelBlock, hdir, hvalid, hrng], rfl, rfl, rfl⟩
    · have hrng' : st.rngFileExists = false := by
        cases h : st.rngFileExists
        · rfl
        · exact absurd h hrng
      refine ⟨prepModel
          { weights := st.storedWeights, num_labels := st.storedNumLabels
            gradient_checkpointing := false, device := { name := "cpu" } },
        st, by simp [loadModelBlock, hdir, hvalid, hrng'], hrng', rfl, rfl⟩
  · intro hdir
    exact ⟨prepModel
        { weights := baseWeights, num_labels := 3
          gradient_checkpointing := false, device := { name := "cpu" } },
      by simp [loadModelBlock, hdir], rfl, rfl⟩

/-- Concrete fixtures for the C7 witness. -/
def wCkpt : ModelWeights := { vals := [3, 1, 4] }

def wBase : ModelWeights := { vals := [0, 0, 0] }

def stPresent : CkptState :=
  { dirExists := true, storedWeights := wCkpt, storedNumLabels := 3
    storedValid := true, rngFileExists := true }

def stAbsent : CkptState :=
  { dirExists := false, storedWeights := wCkpt, storedNumLabels := 3
    storedValid := true, rngFileExists := false }

theorem loadModelBlock_post_witness :
    (stPresent.dirExists = true ∧ stPresent.storedValid = true ∧
     (∃ m st', loadModelBlock (some "./results_phase2/checkpoint-9580") stPresent wBase =
         some (m, st') ∧
       st'.rngFileExists = false ∧ m.weights = stPresent.storedWeights ∧
       m.num_labels = stPresent.storedNumLabels)) ∧
    (stAbsent.dirExists = false ∧
     (∃ m, loadModelBlock (some "./results_phase2/checkpoint-9580") stAbsent wBase =
         some (m, stAbsent) ∧
       m.weights = wBase ∧ m.num_labels = 3)) :=
  ⟨⟨rfl, rfl,
    (loadModelBlock_post "./results_phase2/checkpoint-9580" stPresent wBase).1 rfl rfl⟩,
   ⟨rfl,
    (loadModelBlock_post "./results_phase2/checkpoint-9580" stAbsent wBase).2 rfl⟩⟩

end NewsTextClassification
